import Mathlib

/-!
# Verification of the Word Document Merger (atominspections)

A shallow embedding of the repository's core components, at the granularity
induced by the source's own regex-based scanning:

* `src/tableHandler.js` — the Table Numberer (`processTablesInDocument`,
  `processTableReferences`, `processTable`, `processRowFirstCell`).
* `src/wordMerger.js` — the orchestrator (`mergeDocuments`) and the Template
  Applier (`applyTemplate`, `preserveRelationships`,
  `updateDocumentReferences`, `removeBlankFirstPage`).
* `src/index.js` — the HTTP service's per-request path computation.

The source operates on XML strings via `String.match` / `String.replace`.
The embedding models the scanned units (tables, rows, cells, paragraphs,
relationship entries, body blocks) as structured values, and models
JavaScript's `String.replace(needle, repl)` — which rewrites only the first
occurrence of `needle` — as `replaceFirst` on lists of those units.
-/

namespace AtomInspections

/-- JavaScript `String.replace(needle, repl)` at unit granularity: replace the
first element equal to `a` with `b`; if no element matches, the list is
returned unchanged. -/
def replaceFirst {α : Type} [DecidableEq α] : List α → α → α → List α
  | [], _, _ => []
  | x :: xs, a, b => if x = a then b :: xs else x :: replaceFirst xs a b

/-! ## Table Numberer (`src/tableHandler.js`)

A paragraph (`<w:p>…</w:p>`) is scanned for an optional `<w:pPr>…</w:pPr>`
properties block (tableHandler.js:165-166); everything else is run content.
A cell (`<w:tc>…</w:tc>`) is scanned for its first paragraph
(tableHandler.js:148-149); `rest` is the remaining cell content.
A row (`<w:tr…</w:tr>`) is scanned for its first cell (tableHandler.js:138-139);
`marker` records whether the `<REF_NUMBER_ADDED>` sentinel (inserted by the
write branches, stripped at tableHandler.js:75) is attached to the row. -/

structure Para where
  pPr : Option String
  runs : String
deriving DecidableEq

structure Cell where
  para : Option Para
  rest : String
deriving DecidableEq

structure Row where
  tc : Option Cell
  rest : String
  marker : Bool
deriving DecidableEq

/-- A table is the list of its rows (`tableXml.match(/<w:tr…/g)`,
tableHandler.js:93-94). -/
abbrev Table := List Row

/-- Removing the `<REF_NUMBER_ADDED>` sentinel from a row
(`.replace(/<REF_NUMBER_ADDED>/g, '')`, tableHandler.js:75). -/
def stripRow (r : Row) : Row := { r with marker := false }

/-- The run written into the first cell: `<w:r><w:t>${serialNumber}</w:t></w:r>`
(tableHandler.js:154 and 171/174). -/
def mkNumRun (n : Nat) : String := "<w:r><w:t>" ++ toString n ++ "</w:t></w:r>"

/-- `processRowFirstCell(rowXml, serialNumber)` (tableHandler.js:136-182).

* No `<w:tc>` cell found: the row is returned unchanged (line 141-143).
* Cell has no paragraph: a paragraph holding the serial-number run is inserted
  right after `<w:tc>`, with the `<REF_NUMBER_ADDED>` sentinel (lines 151-156).
* Paragraph has a `<w:pPr>` block: the source calls
  `paragraph.replace(pPrMatch[0] + '[\s\S]*?<\/w:p>', …)` (lines 168-172) with a
  plain **string** first argument, so it searches for the literal text
  `<w:pPr>…</w:pPr>[sS]*?</w:p>`; no OOXML paragraph contains the literal
  substring `[sS]*?</w:p>`, so the replace finds nothing and the paragraph —
  hence the row — is returned unchanged (the embedding assumes paragraphs do
  not contain that literal text).
* Paragraph without `<w:pPr>`: the whole paragraph is replaced by
  `<w:p><w:r><w:t>n</w:t></w:r></w:p>` followed by the sentinel
  (lines 173-181). -/
def processRowFirstCell (row : Row) (serialNumber : Nat) : Row :=
  match row.tc with
  | none => row
  | some cell =>
    match cell.para with
    | none =>
      { row with
        tc := some { cell with para := some ⟨none, mkNumRun serialNumber⟩ },
        marker := true }
    | some para =>
      match para.pPr with
      | some _ => row
      | none =>
        { row with
          tc := some { cell with para := some ⟨none, mkNumRun serialNumber⟩ },
          marker := true }

/-- Whether a 1-indexed row position is skipped as a header:
`rowNumber === 1 || (rowNumber % 4 === 1 && rowNumber > 1)`
(tableHandler.js:112). -/
def isHeaderPos (rowNumber : Nat) : Bool :=
  rowNumber == 1 || (rowNumber % 4 == 1 && rowNumber > 1)

/-- The loop of `processTable` (tableHandler.js:107-125): `rows` is the row
list of the original table, `idx` the current 0-based index, `acc` the
progressively rewritten table (`processedTableXml`), `serial` the running
serial number.  A non-header row is run through `processRowFirstCell`; when
the result differs from the row, the **first occurrence** of the original row
in `acc` is replaced (`processedTableXml.replace(row, processedRow)`,
line 122) and the serial number is incremented. -/
def processTableAux : List Row → Nat → List Row → Nat → List Row × Nat
  | [], _, acc, serial => (acc, serial)
  | r :: rest, idx, acc, serial =>
    if isHeaderPos (idx + 1) then
      processTableAux rest (idx + 1) acc serial
    else
      let pr := processRowFirstCell r serial
      if pr = r then
        processTableAux rest (idx + 1) acc serial
      else
        processTableAux rest (idx + 1) (replaceFirst acc r pr) (serial + 1)

/-- `processTable(tableXml, tableIndex, startSerialNumber)`
(tableHandler.js:89-128): rewrite the table's rows, returning the rewritten
table (the function does not return the serial count; the caller recounts it
from the sentinels). An empty row list returns the table unchanged
(lines 96-99), which coincides with the fold. -/
def processTable (tbl : Table) (startSerialNumber : Nat) : Table :=
  (processTableAux tbl 0 tbl startSerialNumber).1

/-- Number of rows carrying the `<REF_NUMBER_ADDED>` sentinel
(`processedTable.match(/<REF_NUMBER_ADDED>/g).length`, tableHandler.js:71). -/
def markerCount (tbl : Table) : Nat := (tbl.filter (fun r => r.marker)).length

/-- The loop of `processTableReferences` (tableHandler.js:66-76): `tables` is
the table list of the original document, `acc` the progressively rewritten
document (`processedXml`).  Each table is processed from the current serial
number; the serial number advances by the number of sentinels in the processed
table; the **first occurrence** of the original table in `acc` is replaced by
the processed table with all sentinels stripped
(`processedXml.replace(originalTable, processedTable.replace(/<REF_NUMBER_ADDED>/g, ''))`,
line 75). -/
def processTableRefsAux : List Table → List Table → Nat → List Table
  | [], acc, _ => acc
  | t :: rest, acc, serial =>
    let p := processTable t serial
    processTableRefsAux rest
      (replaceFirst acc t (p.map stripRow))
      (serial + markerCount p)

/-- `processTableReferences(docXml, startNumber)` (tableHandler.js:49-80); a
document is the list of its tables (`docXml.match(/<w:tbl>…/g)`, line 54-55).
A document with no tables is returned unchanged (lines 57-60), which
coincides with the fold. -/
def processTableReferences (doc : List Table) (startNumber : Nat) : List Table :=
  processTableRefsAux doc doc startNumber

/-- Serial numbers the `processTable` loop assigns while walking `rows` from
index `idx` with current serial `serial`.  The branch structure mirrors
`processTableAux`; whether a row is rewritten does not depend on the
accumulated table, so the accumulator is not needed here. -/
def assignedNumbers : List Row → Nat → Nat → List Nat
  | [], _, _ => []
  | r :: rest, idx, serial =>
    if isHeaderPos (idx + 1) then
      assignedNumbers rest (idx + 1) serial
    else if processRowFirstCell r serial = r then
      assignedNumbers rest (idx + 1) serial
    else
      serial :: assignedNumbers rest (idx + 1) (serial + 1)

/-- Number of rows the `processTable` loop rewrites (serial increments). -/
def writeCount : List Row → Nat → Nat → Nat
  | [], _, _ => 0
  | r :: rest, idx, serial =>
    if isHeaderPos (idx + 1) then
      writeCount rest (idx + 1) serial
    else if processRowFirstCell r serial = r then
      writeCount rest (idx + 1) serial
    else
      writeCount rest (idx + 1) (serial + 1) + 1

/-- Per-table lists of serial numbers assigned by the
`processTableReferences` loop started at serial `serial`. -/
def docAssigned : List Table → Nat → List (List Nat)
  | [], _ => []
  | t :: rest, serial =>
    assignedNumbers t 0 serial ::
      docAssigned rest (serial + markerCount (processTable t serial))

/-- Total number of serial increments over the whole document. -/
def docWriteTotal : List Table → Nat → Nat
  | [], _ => 0
  | t :: rest, serial =>
    writeCount t 0 serial +
      docWriteTotal rest (serial + markerCount (processTable t serial))

/-- A row carries no `<REF_NUMBER_ADDED>` sentinel (true of every row of a
document as read from disk: that sentinel is an internal marker of
`tableHandler.js`, inserted and stripped within a single call). -/
def cleanRow (r : Row) : Prop := r.marker = false

instance (r : Row) : Decidable (cleanRow r) := by
  unfold cleanRow; infer_instance

/-- The rewrite the `processTable` loop performs on each row **in place**:
header positions and rows `processRowFirstCell` leaves unchanged stay, every
other row is replaced by its rewritten (sentinel-carrying) form and the serial
advances.  `processTable` coincides with this when its first-occurrence row
replacement always lands on the row being processed (see
`processTable_of_nodup` below). -/
def markedNumber : List Row → Nat → Nat → List Row
  | [], _, _ => []
  | r :: rest, idx, serial =>
    if isHeaderPos (idx + 1) then
      r :: markedNumber rest (idx + 1) serial
    else
      let pr := processRowFirstCell r serial
      if pr = r then
        r :: markedNumber rest (idx + 1) serial
      else
        pr :: markedNumber rest (idx + 1) (serial + 1)

/-- The document-level rewrite performed table-by-table in place: each table is
replaced by its processed, sentinel-stripped form, and the serial advances by
the table's sentinel count, exactly as in `processTableRefsAux`. -/
def numberDoc : List Table → Nat → List Table
  | [], _ => []
  | t :: rest, serial =>
    (processTable t serial).map stripRow ::
      numberDoc rest (serial + markerCount (processTable t serial))

/-- The first-occurrence table replacement of `processTableReferences`
(tableHandler.js:75) lands on the table being processed: no earlier table's
processed, sentinel-stripped form coincides with a later original table. -/
def docInPlaceB : List Table → Nat → Bool
  | [], _ => true
  | t :: rest, serial =>
    rest.all (fun t2 => (processTable t serial).map stripRow != t2) &&
      docInPlaceB rest (serial + markerCount (processTable t serial))

/-- Every row the `processTable` loop would rewrite already carries exactly the
serial number the loop assigns at its position (so a rewrite only re-attaches
the sentinel without changing the stripped row). -/
def alreadyNumbered : List Row → Nat → Nat → Prop
  | [], _, _ => True
  | r :: rest, idx, serial =>
    if isHeaderPos (idx + 1) then
      alreadyNumbered rest (idx + 1) serial
    else if processRowFirstCell r serial = r then
      alreadyNumbered rest (idx + 1) serial
    else
      stripRow (processRowFirstCell r serial) = r ∧
        alreadyNumbered rest (idx + 1) (serial + 1)

/-- Every table of the document is a fixed point of processing (up to sentinel
stripping) at its chained start serial. -/
def docAlready : List Table → Nat → Prop
  | [], _ => True
  | t :: rest, serial =>
    (processTable t serial).map stripRow = t ∧
      docAlready rest (serial + markerCount (processTable t serial))

/-- Occurrence count of a value in a list, mirroring how many times a scanned
unit's text occurs as a replaceable substring. -/
def occCount {α : Type} [DecidableEq α] (a : α) : List α → Nat
  | [] => 0
  | x :: xs => (if x = a then 1 else 0) + occCount a xs

/-- Concatenation of per-table assigned-number lists. -/
def concatAll (l : List (List Nat)) : List Nat := l.foldr (fun a b => a ++ b) []

/-! ## Template Applier: leading-blank-page removal (`src/wordMerger.js:405-428`)

`removeBlankFirstPage` matches
`/<w:body>[\s\S]*?<w:p>[\s\S]*?<w:r>[\s\S]*?<w:br w:type="page"\/>[\s\S]*?<\/w:r>[\s\S]*?<\/w:p>/`
against `word/document.xml` and, on a match, replaces the whole matched span
by `<w:body>`.  Because every `[\s\S]*?` can grow across element boundaries,
the match runs from the start of the body to the close of the **first
paragraph anywhere in the body that contains a page-break run** (the lazy
quantifiers stop at the first `<w:br w:type="page"/>` and the first `</w:r>`
and `</w:p>` after it).  The replacement therefore deletes every paragraph
before that break paragraph and the break paragraph itself.  If no paragraph
contains a page-break run, nothing matches and the body is unchanged.

The body is modelled as the list of its paragraphs, each the list of its runs;
a run records whether it is a `<w:br w:type="page"/>` page-break run. -/

structure BRun where
  brPage : Bool
  text : String
deriving DecidableEq

structure BodyPara where
  runs : List BRun
deriving DecidableEq

/-- A paragraph contains a page-break run. -/
def paraHasPageBreak (p : BodyPara) : Bool := p.runs.any (fun r => r.brPage)

/-- Everything after the first paragraph containing a page break. -/
def dropThroughFirstBreak : List BodyPara → List BodyPara
  | [] => []
  | p :: rest =>
    if paraHasPageBreak p then rest else dropThroughFirstBreak rest

/-- `removeBlankFirstPage` (wordMerger.js:405-428) on the body's paragraph
list: if some paragraph contains a page-break run, delete every paragraph up
to and including the first such paragraph; otherwise leave the body
unchanged. -/
def removeBlankFirstPage (body : List BodyPara) : List BodyPara :=
  if body.any paraHasPageBreak then dropThroughFirstBreak body else body

/-! ## Template Applier: relationship repair (`src/wordMerger.js:292-321`)

`preserveRelationships` reads `word/_rels/document.xml.rels` from the template
and the merged package.  If either is unreadable it returns leaving the merged
relationships untouched.  Otherwise it collects every template `<Relationship>`
entry whose `Target` is `headerN.xml`/`footerN.xml` and splices them in front
of the closing `</Relationships>` tag — i.e. appends them after the existing
merged entries.  No check of relationship ids is performed anywhere in the
function. -/

structure RelEntry where
  relId : String
  isHeaderFooter : Bool
  attrs : String
deriving DecidableEq

/-- `preserveRelationships(templateZip, mergedZip)` (wordMerger.js:292-321),
expressed on the two relationship parts (`none` = part unreadable/missing);
the result is the merged package's relationship part after the call. -/
def preserveRelationships
    (templateRels mergedRels : Option (List RelEntry)) : Option (List RelEntry) :=
  match templateRels, mergedRels with
  | some tr, some mr =>
    let headerFooterRels := tr.filter (fun e => e.isHeaderFooter)
    if headerFooterRels.length > 0 then some (mr ++ headerFooterRels)
    else some mr
  | _, m => m

/-! ## Template Applier: section-properties normalization (`src/wordMerger.js:328-371`)

`updateDocumentReferences` scans both documents for
`/<w:sectPr[^>]*>[\s\S]*?<\/w:sectPr>/g` blocks.  The template's **last**
match is the authoritative block; if the merged document has no match the
block is spliced in before `</w:body>`, otherwise each merged match is
replaced (first-occurrence string replace) by the authoritative block.
The body is modelled as a list of blocks, each either an ordinary block or a
section-properties block with its text. -/

inductive Block where
  | plain (content : String)
  | sectPr (content : String)
deriving DecidableEq

/-- Whether a block is a section-properties block. -/
def Block.isSectPr : Block → Bool
  | .sectPr _ => true
  | _ => false

/-- The section-properties matches of a body, in order
(`doc.match(sectPrRegex)`). -/
def sectPrList (body : List Block) : List String :=
  body.filterMap (fun b => match b with | .sectPr s => some s | _ => none)

/-- Replace a block by the authoritative section-properties block if it is a
section-properties block. -/
def applySect (mainSectPr : String) : Block → Block
  | .sectPr _ => .sectPr mainSectPr
  | b => b

/-- `updateDocumentReferences(templateZip, mergedZip)` (wordMerger.js:328-371)
on the two parsed bodies: no template section-properties block means return
unchanged (line 343-346); `mainSectPr` is the template's last block
(line 349); a merged body without section properties gets the block appended
before its closing boundary (line 354-357); otherwise every merged match is
replaced in a first-occurrence loop (line 358-364). -/
def updateDocumentReferences (templateDoc mergedDoc : List Block) : List Block :=
  match (sectPrList templateDoc).getLast? with
  | none => mergedDoc
  | some mainSectPr =>
    match sectPrList mergedDoc with
    | [] => mergedDoc ++ [Block.sectPr mainSectPr]
    | s :: rest =>
      (s :: rest).foldl
        (fun acc sect => replaceFirst acc (Block.sectPr sect) (Block.sectPr mainSectPr))
        mergedDoc

/-! ## Orchestration (`src/wordMerger.js:13-92`, `src/tableHandler.js:9-41`)

The pipeline's file-system effects: a package is its `word/document.xml` part
(parsed into its tables, `none` when the part is absent) plus its remaining
parts; the file system maps paths to packages.  `mergeDocuments` is
parameterized by the external `docx-merger` combination (`docxMerge`) and the
package transformation computed by `templateApplier.applyTemplate`
(`applyT`) — the embedding captures **where and when** their results are
written, which is what the orchestration source fixes. -/

structure Pkg where
  documentXml : Option (List Table)
  restParts : String
deriving DecidableEq

/-- A file system: path ↦ package. -/
def FS : Type := String → Option Pkg

/-- `fs.writeFileSync` at package granularity. -/
def fsPut (fs : FS) (p : String) (v : Pkg) : FS :=
  fun q => if q = p then some v else fs q

/-- `fs.unlinkSync`. -/
def fsErase (fs : FS) (p : String) : FS :=
  fun q => if q = p then none else fs q

/-- `processTablesInDocument(outputPath)` (tableHandler.js:9-41): read the
package at `outputPath` (throws if unreadable), get `word/document.xml`
(`zip.file(...)` is `null` when absent, so the call throws), number the
tables starting from serial 1 (line 21-22) and write the package back to the
same path.  The returned state is the file system after the call, failed or
not. -/
def processTablesInDocument (fs : FS) (outputPath : String) :
    FS × Except String Unit :=
  match fs outputPath with
  | none => (fs, .error "cannot read document")
  | some p =>
    match p.documentXml with
    | none => (fs, .error "word/document.xml missing")
    | some doc =>
      (fsPut fs outputPath { p with documentXml := some (processTableReferences doc 1) },
        .ok ())

/-- `mergeDocuments(templatePath, documentPaths, outputPath)`
(wordMerger.js:13-92): existence checks for the template (line 22-24) and each
input (line 27-31) fail before any write; the merged buffer is written to
`outputPath + '.temp'` (line 55-61); `applyTemplate` writes its result
directly to `outputPath` (wordMerger.js:167-176, i.e. templateApplier line
175); then `processTablesInDocument(outputPath)` runs; only on its success is
the `.temp` file removed and the output path resolved — on failure the
promise rejects with the error and the file system keeps every write made so
far. -/
def mergeDocuments (applyT : Pkg → Pkg → Pkg) (docxMerge : List Pkg → Pkg)
    (fs : FS) (templatePath : String) (documentPaths : List String)
    (outputPath : String) : FS × Except String String :=
  match fs templatePath with
  | none => (fs, .error "template does not exist")
  | some templatePkg =>
    if documentPaths.all (fun d => (fs d).isSome) then
      let merged := docxMerge (documentPaths.filterMap fs)
      let fs1 := fsPut fs (outputPath ++ ".temp") merged
      let applied := applyT templatePkg merged
      let fs2 := fsPut fs1 outputPath applied
      match processTablesInDocument fs2 outputPath with
      | (fs3, .error e) => (fs3, .error e)
      | (fs3, .ok _) => (fsErase fs3 (outputPath ++ ".temp"), .ok outputPath)
    else (fs, .error "document does not exist")

/-! ## Service surface (`src/index.js`)

The `/merge` handler computes `outputPath = path.join(__dirname, 'uploads',
'merged-document.docx')` (index.js:51) — a constant independent of the
request — and `mergeDocuments` derives its scratch path as
`outputPath + '.temp'` (wordMerger.js:55). -/

structure MergeRequest where
  uploadedFiles : List String
deriving DecidableEq

/-- The output path the `/merge` handler uses for a request (index.js:51). -/
def requestOutputPath (dirname : String) (_req : MergeRequest) : String :=
  dirname ++ "/uploads/merged-document.docx"

/-- The temporary path `mergeDocuments` derives for a request
(wordMerger.js:55). -/
def requestTempPath (dirname : String) (req : MergeRequest) : String :=
  requestOutputPath dirname req ++ ".temp"


/-! ## Concrete instances used to settle the claims -/

/-- A header row (any content; it sits at a skipped position). -/
def c1HeaderRow : Row := ⟨some ⟨some ⟨none, "Item"⟩, "hdrcell"⟩, "hdrrow", false⟩

/-- A data row whose first cell's paragraph carries a `<w:pPr>` block. -/
def c1DataRow : Row :=
  ⟨some ⟨some ⟨some "<w:pPr><w:jc/></w:pPr>", "Pump A"⟩, "cell"⟩, "row", false⟩

/-- A row whose first cell's paragraph has formatting properties. -/
def c3PPrRow : Row :=
  ⟨some ⟨some ⟨some "<w:pPr><w:ind/></w:pPr>", "OldText"⟩, "ctail"⟩, "rtail", false⟩

/-- A row whose first cell's paragraph has no formatting properties. -/
def c3PlainRow : Row := ⟨some ⟨some ⟨none, "OldText"⟩, "ctail"⟩, "rtail", false⟩

/-- A body paragraph holding plain text. -/
def c4Hello : BodyPara := ⟨[⟨false, "Hello"⟩]⟩

/-- A body paragraph holding a page-break run, *not* at the start of the body. -/
def c4Break : BodyPara := ⟨[⟨true, ""⟩]⟩

/-- A body paragraph after the break. -/
def c4World : BodyPara := ⟨[⟨false, "World"⟩]⟩

/-- A template relationship entry targeting a header file. -/
def c5HeaderRel : RelEntry := ⟨"rId1", true, "Type=header Target=header1.xml"⟩

/-- A merged-document relationship entry with the same id `rId1`. -/
def c5MergedRels : List RelEntry :=
  [⟨"rId1", true, "Type=header Target=header1.xml"⟩,
   ⟨"rId2", false, "Type=styles Target=styles.xml"⟩]

/-- A document whose single table repeats the same row twice: the
first-occurrence row replacement then writes the serial number into the first
copy (the header position). -/
def c6Doc : List Table :=
  [[⟨some ⟨some ⟨none, "Pump"⟩, "cell"⟩, "row", false⟩,
    ⟨some ⟨some ⟨none, "Pump"⟩, "cell"⟩, "row", false⟩]]

/-- A two-table document with pairwise distinct rows. -/
def c6wDoc : List Table :=
  [[⟨some ⟨some ⟨none, "A"⟩, "ca"⟩, "ra", false⟩,
    ⟨some ⟨some ⟨none, "B"⟩, "cb"⟩, "rb", false⟩],
   [⟨some ⟨some ⟨none, "C"⟩, "cc"⟩, "rc", false⟩,
    ⟨some ⟨some ⟨none, "D"⟩, "cd"⟩, "rd", false⟩]]

/-- A two-table document: one data row in each table. -/
def c2wDoc : List Table :=
  [[⟨some ⟨some ⟨none, "H1"⟩, "c1"⟩, "r1", false⟩,
    ⟨some ⟨some ⟨none, "a1"⟩, "c2"⟩, "r2", false⟩],
   [⟨some ⟨some ⟨none, "H2"⟩, "c3"⟩, "r3", false⟩,
    ⟨some ⟨some ⟨none, "b1"⟩, "c4"⟩, "r4", false⟩]]

/-- A one-table document with headers at rows 1 and 5, two numbered data rows
and one cell-less row that consumes no number. -/
def c10wDoc : List Table :=
  [[⟨some ⟨some ⟨none, "Hd"⟩, "c0"⟩, "r0", false⟩,
    ⟨some ⟨some ⟨none, "u"⟩, "c1"⟩, "r1", false⟩,
    ⟨some ⟨some ⟨none, "v"⟩, "c2"⟩, "r2", false⟩,
    ⟨none, "nocell", false⟩,
    ⟨some ⟨some ⟨none, "Hd5"⟩, "c4"⟩, "r4", false⟩]]

/-- The template package for the orchestration scenario. -/
def c7TplPkg : Pkg := ⟨some [], "template parts"⟩

/-- A file system holding the template and one input document. -/
def c7FS : FS := fun p =>
  if p = "template.docx" then some c7TplPkg
  else if p = "doc1.docx" then some ⟨some [], "doc1 parts"⟩
  else none

/-- An external merge whose combined package lacks `word/document.xml`
(`docx-merger` output is not inspected by the orchestrator before the
numbering stage). -/
def c7Merge : List Pkg → Pkg := fun _ => ⟨none, "merged parts"⟩

/-- A template application that keeps the merged package's parts. -/
def c7Apply : Pkg → Pkg → Pkg := fun _ m => m

/-- Two distinct service requests. -/
def c9ReqA : MergeRequest := ⟨["1111-a.docx"]⟩

/-- Another request, with different uploads. -/
def c9ReqB : MergeRequest := ⟨["2222-b.docx"]⟩

/-- Template body: a paragraph and two section-properties blocks. -/
def c8wTpl : List Block := [.plain "intro", .sectPr "S1", .sectPr "S2"]

/-- Merged body with two distinct section-properties blocks. -/
def c8wMrg : List Block := [.plain "a", .sectPr "X", .plain "b", .sectPr "Y"]

/-! # Theorems -/

/-! ## Basic facts about first-occurrence replacement -/

theorem replaceFirst_self {α : Type} [DecidableEq α] (l : List α) (a : α) :
    replaceFirst l a a = l := by
  induction l with
  | nil => rfl
  | cons x xs ih =>
    simp only [replaceFirst]
    by_cases h : x = a
    · simp [h]
    · simp [h, ih]

theorem replaceFirst_append_of_forall_ne {α : Type} [DecidableEq α]
    (A : List α) {a : α} (h : ∀ x ∈ A, x ≠ a) (l : List α) (b : α) :
    replaceFirst (A ++ a :: l) a b = A ++ b :: l := by
  induction A with
  | nil => simp [replaceFirst]
  | cons x xs ih =>
    have hx : x ≠ a := h x (by simp)
    simp only [List.cons_append, replaceFirst, if_neg hx, List.append_eq]
    rw [ih (fun y hy => h y (by simp [hy]))]

theorem occCount_pos_of_mem {α : Type} [DecidableEq α] {a : α} {l : List α}
    (h : a ∈ l) : 1 ≤ occCount a l := by
  induction l with
  | nil => cases h
  | cons x xs ih =>
    simp only [occCount]
    rcases List.mem_cons.mp h with h1 | h2
    · simp [h1]
    · have := ih h2; omega

theorem mem_of_occCount_pos {α : Type} [DecidableEq α] {a : α} {l : List α}
    (h : 1 ≤ occCount a l) : a ∈ l := by
  induction l with
  | nil => simp [occCount] at h
  | cons x xs ih =>
    simp only [occCount] at h
    by_cases hx : x = a
    · simp [hx]
    · simp only [if_neg hx, Nat.zero_add] at h
      exact List.mem_cons_of_mem _ (ih h)

theorem occCount_replaceFirst_of_mem {α : Type} [DecidableEq α]
    {l : List α} {a : α} (h : a ∈ l) (b v : α) (hvb : v ≠ b) :
    occCount v (replaceFirst l a b) = occCount v l - (if v = a then 1 else 0) := by
  induction l with
  | nil => cases h
  | cons x xs ih =>
    simp only [replaceFirst]
    by_cases hxa : x = a
    · subst hxa
      have hnb : ¬(b = v) := fun hh => hvb hh.symm
      simp only [if_pos rfl, occCount, if_neg hnb]
      by_cases hvx : v = x
      · have hxv : x = v := hvx.symm
        simp only [if_pos hxv, if_pos hvx]
        omega
      · have hxv : ¬(x = v) := fun hh => hvx hh.symm
        simp only [if_neg hxv, if_neg hvx]
        omega
    · have hmem : a ∈ xs := by
        rcases List.mem_cons.mp h with h1 | h2
        · exact absurd h1.symm hxa
        · exact h2
      simp only [if_neg hxa, occCount, ih hmem]
      by_cases hva : v = a
      · have : 1 ≤ occCount v xs := by rw [hva]; exact occCount_pos_of_mem hmem
        simp only [if_pos hva]
        omega
      · simp [if_neg hva]


/-! ## The sentinel count of a processed table equals the number of rewrites -/

theorem marker_of_changed {r : Row} {s : Nat}
    (h : processRowFirstCell r s ≠ r) : (processRowFirstCell r s).marker = true := by
  rcases r with ⟨tc, rest, mk⟩
  cases tc with
  | none => exact absurd rfl h
  | some cell =>
    rcases cell with ⟨para, crest⟩
    cases para with
    | none => rfl
    | some p =>
      rcases p with ⟨pPr, runs⟩
      cases pPr with
      | none => rfl
      | some _ => exact absurd rfl h

theorem markerCount_cons (r : Row) (l : List Row) :
    markerCount (r :: l) = (if r.marker then 1 else 0) + markerCount l := by
  simp only [markerCount, List.filter]
  cases hm : r.marker <;> simp [Nat.add_comm]

theorem markerCount_replaceFirst {l : List Row} {r : Row} (h : r ∈ l)
    {pr : Row} (hr : r.marker = false) (hpr : pr.marker = true) :
    markerCount (replaceFirst l r pr) = markerCount l + 1 := by
  induction l with
  | nil => cases h
  | cons x xs ih =>
    simp only [replaceFirst]
    by_cases hx : x = r
    · subst hx
      rw [if_pos rfl, markerCount_cons, markerCount_cons, hr, hpr]
      simp [Nat.add_comm]
    · have hmem : r ∈ xs := by
        rcases List.mem_cons.mp h with h1 | h2
        · exact absurd h1.symm hx
        · exact h2
      rw [if_neg hx, markerCount_cons, markerCount_cons, ih hmem]
      omega

theorem markerCount_processTableAux (rows : List Row) :
    ∀ idx acc serial,
      (∀ v : Row, v.marker = false → occCount v rows ≤ occCount v acc) →
      (∀ r ∈ rows, r.marker = false) →
      markerCount (processTableAux rows idx acc serial).1
        = markerCount acc + writeCount rows idx serial := by
  induction rows with
  | nil => intro idx acc serial _ _; simp [processTableAux, writeCount]
  | cons r rest ih =>
    intro idx acc serial hocc hclean
    have hcr : r.marker = false := hclean r (by simp)
    have hoccRest : ∀ v : Row, v.marker = false → occCount v rest ≤ occCount v acc := by
      intro v hv
      have := hocc v hv
      simp only [occCount] at this
      omega
    simp only [processTableAux, writeCount]
    by_cases hh : isHeaderPos (idx + 1)
    · simp only [hh, if_true]
      exact ih (idx + 1) acc serial hoccRest (fun x hx => hclean x (by simp [hx]))
    · simp only [hh, if_false, Bool.false_eq_true]
      by_cases hch : processRowFirstCell r serial = r
      · simp only [hch, if_pos rfl]
        exact ih (idx + 1) acc serial hoccRest (fun x hx => hclean x (by simp [hx]))
      · simp only [if_neg hch]
        have hmk : (processRowFirstCell r serial).marker = true := marker_of_changed hch
        have hrmem : r ∈ acc := by
          apply mem_of_occCount_pos
          have h1 : 1 ≤ occCount r (r :: rest) := by simp [occCount]
          exact le_trans h1 (hocc r hcr)
        have hocc2 : ∀ v : Row, v.marker = false →
            occCount v rest ≤ occCount v (replaceFirst acc r (processRowFirstCell r serial)) := by
          intro v hv
          rw [occCount_replaceFirst_of_mem hrmem _ v
            (fun he => by rw [he] at hv; rw [hv] at hmk; cases hmk)]
          have := hocc v hv
          simp only [occCount] at this
          by_cases hvr : v = r
          · subst hvr; simp only [if_pos rfl] at this ⊢; omega
          · have hrn : ¬(r = v) := fun hh2 => hvr hh2.symm
            simp only [if_neg hvr, if_neg hrn] at this ⊢; omega
        rw [ih (idx + 1) _ (serial + 1) hocc2 (fun x hx => hclean x (by simp [hx]))]
        rw [markerCount_replaceFirst hrmem hcr hmk]
        omega

theorem markerCount_eq_zero_of_clean {l : List Row}
    (h : ∀ r ∈ l, r.marker = false) : markerCount l = 0 := by
  induction l with
  | nil => rfl
  | cons x xs ih =>
    rw [markerCount_cons, h x (by simp), ih (fun r hr => h r (by simp [hr]))]
    simp

theorem markerCount_processTable (tbl : Table) (s : Nat)
    (hclean : ∀ r ∈ tbl, r.marker = false) :
    markerCount (processTable tbl s) = writeCount tbl 0 s := by
  have h := markerCount_processTableAux tbl 0 tbl s (fun v _ => le_refl _) hclean
  rw [processTable, h, markerCount_eq_zero_of_clean hclean, Nat.zero_add]


/-! ## Assigned serial numbers form contiguous ranges -/

theorem assignedNumbers_eq_range' (rows : List Row) :
    ∀ idx s, assignedNumbers rows idx s = List.range' s (writeCount rows idx s) := by
  induction rows with
  | nil => intro idx s; simp [assignedNumbers, writeCount]
  | cons r rest ih =>
    intro idx s
    simp only [assignedNumbers, writeCount]
    by_cases hh : isHeaderPos (idx + 1)
    · simp only [hh, if_true]; exact ih (idx + 1) s
    · simp only [hh, if_false, Bool.false_eq_true]
      by_cases hch : processRowFirstCell r s = r
      · simp only [if_pos hch]; exact ih (idx + 1) s
      · simp only [if_neg hch, ih (idx + 1) (s + 1)]
        rfl

theorem range'_append_contig (m : Nat) :
    ∀ s n, List.range' s m ++ List.range' (s + m) n = List.range' s (m + n) := by
  induction m with
  | zero => intro s n; simp
  | succ m ih =>
    intro s n
    have h1 : List.range' s (m + 1) = s :: List.range' (s + 1) m := List.range'_succ s m 1
    have h2 : List.range' s (m + 1 + n) = s :: List.range' (s + 1) (m + n) := by
      have he : m + 1 + n = (m + n) + 1 := by omega
      rw [he, List.range'_succ]
    rw [h1, h2, List.cons_append]
    have : s + (m + 1) = (s + 1) + m := by omega
    rw [this, ih (s + 1) n]

theorem mem_range'_bounds {x s n : Nat} (h : x ∈ List.range' s n) :
    s ≤ x ∧ x < s + n := by
  have := List.mem_range'_1.mp h
  omega

/-! ## Monotonicity of the document-level serial chain -/

theorem le_of_mem_docAssigned (docs : List Table) :
    ∀ s k x, x ∈ (docAssigned docs s).getD k [] → s ≤ x := by
  induction docs with
  | nil => intro s k x hx; simp [docAssigned] at hx
  | cons t rest ih =>
    intro s k x hx
    cases k with
    | zero =>
      simp only [docAssigned, List.getD] at hx
      rw [assignedNumbers_eq_range' t 0 s] at hx
      exact (mem_range'_bounds (by simpa using hx)).1
    | succ k =>
      have hx2 : x ∈ (docAssigned rest (s + markerCount (processTable t s))).getD k [] := by
        simpa [docAssigned, List.getD] using hx
      have := ih (s + markerCount (processTable t s)) k x hx2
      omega

theorem docAssigned_mono (docs : List Table)
    (hclean : ∀ t ∈ docs, ∀ r ∈ t, r.marker = false) :
    ∀ s i j x y, i < j →
      x ∈ (docAssigned docs s).getD i [] →
      y ∈ (docAssigned docs s).getD j [] → x < y := by
  induction docs with
  | nil => intro s i j x y _ hx _; simp [docAssigned] at hx
  | cons t rest ih =>
    intro s i j x y hij hx hy
    cases j with
    | zero => omega
    | succ j =>
      have hy2 : y ∈ (docAssigned rest (s + markerCount (processTable t s))).getD j [] := by
        simpa [docAssigned, List.getD] using hy
      cases i with
      | zero =>
        have hx2 : x ∈ assignedNumbers t 0 s := by
          simpa [docAssigned, List.getD] using hx
        rw [assignedNumbers_eq_range' t 0 s] at hx2
        have hub : x < s + writeCount t 0 s := (mem_range'_bounds hx2).2
        have hlb : s + markerCount (processTable t s) ≤ y :=
          le_of_mem_docAssigned rest _ j y hy2
        rw [markerCount_processTable t s (hclean t (by simp))] at hlb
        omega
      | succ i =>
        have hx2 : x ∈ (docAssigned rest (s + markerCount (processTable t s))).getD i [] := by
          simpa [docAssigned, List.getD] using hx
        exact ih (fun u hu => hclean u (by simp [hu])) _ i j x y (by omega) hx2 hy2

/-! ## Contiguity of the full assignment -/

theorem concatAll_docAssigned (docs : List Table)
    (hclean : ∀ t ∈ docs, ∀ r ∈ t, r.marker = false) :
    ∀ s, concatAll (docAssigned docs s) = List.range' s (docWriteTotal docs s) := by
  induction docs with
  | nil => intro s; simp [docAssigned, docWriteTotal, concatAll]
  | cons t rest ih =>
    intro s
    have hc : concatAll (docAssigned (t :: rest) s)
        = assignedNumbers t 0 s ++ concatAll (docAssigned rest (s + markerCount (processTable t s))) := rfl
    rw [hc, ih (fun u hu => hclean u (by simp [hu])), assignedNumbers_eq_range' t 0 s]
    rw [markerCount_processTable t s (hclean t (by simp))]
    have := range'_append_contig (writeCount t 0 s) s (docWriteTotal rest (s + writeCount t 0 s))
    rw [this]
    have hd : docWriteTotal (t :: rest) s
        = writeCount t 0 s + docWriteTotal rest (s + markerCount (processTable t s)) := rfl
    rw [hd, markerCount_processTable t s (hclean t (by simp))]


/-! ## In-place rewriting under distinctness -/

theorem stripRow_of_clean {r : Row} (h : r.marker = false) : stripRow r = r := by
  rcases r with ⟨tc, rest, mk⟩
  simp only [stripRow]
  simp_all

theorem map_stripRow_of_clean {l : List Row} (h : ∀ r ∈ l, r.marker = false) :
    l.map stripRow = l := by
  induction l with
  | nil => rfl
  | cons x xs ih =>
    simp only [List.map_cons, stripRow_of_clean (h x (by simp)),
      ih (fun r hr => h r (by simp [hr]))]

theorem clean_of_map_strip (l : List Row) : ∀ r ∈ l.map stripRow, r.marker = false := by
  intro r hr
  rcases List.mem_map.mp hr with ⟨a, _, ha⟩
  rw [← ha]
  rfl

theorem ne_of_marker_true_false {a b : Row} (ha : a.marker = true)
    (hb : b.marker = false) : a ≠ b := by
  intro h
  rw [h, hb] at ha
  cases ha

theorem processTableAux_of_nodup (rows : List Row) :
    ∀ idx A s, (∀ a ∈ A, ∀ r ∈ rows, a ≠ r) → rows.Nodup →
      (∀ r ∈ rows, r.marker = false) →
      (processTableAux rows idx (A ++ rows) s).1 = A ++ markedNumber rows idx s := by
  induction rows with
  | nil => intro idx A s _ _ _; simp [processTableAux, markedNumber]
  | cons r rest ih =>
    intro idx A s hA hnd hclean
    obtain ⟨hr_notin, hnd'⟩ := List.nodup_cons.mp hnd
    have hclean' : ∀ x ∈ rest, x.marker = false := fun x hx => hclean x (by simp [hx])
    have hA1 : ∀ a ∈ A ++ [r], ∀ x ∈ rest, a ≠ x := by
      intro a ha x hx
      rcases List.mem_append.mp ha with h1 | h2
      · exact hA a h1 x (by simp [hx])
      · have : a = r := by simpa using h2
        subst this
        intro he
        exact hr_notin (he ▸ hx)
    have hsplit : A ++ r :: rest = (A ++ [r]) ++ rest := by simp
    simp only [processTableAux, markedNumber]
    by_cases hh : isHeaderPos (idx + 1)
    · simp only [hh, if_true]
      rw [hsplit, ih (idx + 1) (A ++ [r]) s hA1 hnd' hclean']
      simp
    · simp only [hh, if_false, Bool.false_eq_true]
      by_cases hch : processRowFirstCell r s = r
      · simp only [if_pos hch]
        rw [hsplit, ih (idx + 1) (A ++ [r]) s hA1 hnd' hclean']
        simp
      · simp only [if_neg hch]
        have hmk : (processRowFirstCell r s).marker = true := marker_of_changed hch
        have hrw : replaceFirst (A ++ r :: rest) r (processRowFirstCell r s)
            = A ++ processRowFirstCell r s :: rest :=
          replaceFirst_append_of_forall_ne A (fun a ha => hA a ha r (by simp)) rest _
        rw [hrw]
        have hA2 : ∀ a ∈ A ++ [processRowFirstCell r s], ∀ x ∈ rest, a ≠ x := by
          intro a ha x hx
          rcases List.mem_append.mp ha with h1 | h2
          · exact hA a h1 x (by simp [hx])
          · have : a = processRowFirstCell r s := by simpa using h2
            subst this
            exact ne_of_marker_true_false hmk (hclean' x hx)
        have hsplit2 : A ++ processRowFirstCell r s :: rest
            = (A ++ [processRowFirstCell r s]) ++ rest := by simp
        rw [hsplit2, ih (idx + 1) _ (s + 1) hA2 hnd' hclean']
        simp

theorem processTable_of_nodup (tbl : Table) (s : Nat) (hnd : tbl.Nodup)
    (hclean : ∀ r ∈ tbl, r.marker = false) :
    processTable tbl s = markedNumber tbl 0 s := by
  have h := processTableAux_of_nodup tbl 0 [] s (by simp) hnd hclean
  simpa [processTable] using h


/-! ## A pass over an already numbered table is a no-op up to sentinels -/

theorem map_stripRow_replaceFirst (l : List Row) (r pr : Row)
    (h : stripRow pr = stripRow r) :
    (replaceFirst l r pr).map stripRow = l.map stripRow := by
  induction l with
  | nil => rfl
  | cons x xs ih =>
    simp only [replaceFirst]
    by_cases hx : x = r
    · rw [if_pos hx]
      simp only [List.map_cons, h, hx]
    · simp only [if_neg hx, List.map_cons, ih]

theorem strip_processTableAux (rows : List Row) :
    ∀ idx acc s, alreadyNumbered rows idx s →
      ((processTableAux rows idx acc s).1).map stripRow = acc.map stripRow := by
  induction rows with
  | nil => intro idx acc s _; simp [processTableAux]
  | cons r rest ih =>
    intro idx acc s han
    simp only [processTableAux]
    by_cases hh : isHeaderPos (idx + 1)
    · simp only [hh, if_true]
      simp only [alreadyNumbered, hh, if_true] at han
      exact ih (idx + 1) acc s han
    · simp only [hh, if_false, Bool.false_eq_true]
      simp only [alreadyNumbered, hh, if_false, Bool.false_eq_true] at han
      by_cases hch : processRowFirstCell r s = r
      · simp only [if_pos hch]
        simp only [if_pos hch] at han
        exact ih (idx + 1) acc s han
      · simp only [if_neg hch]
        simp only [if_neg hch] at han
        obtain ⟨hstrip, han'⟩ := han
        have hclean_r : r.marker = false := by
          rw [← hstrip]
          rfl
        have heq : stripRow (processRowFirstCell r s) = stripRow r := by
          rw [hstrip, stripRow_of_clean hclean_r]
        rw [ih (idx + 1) _ (s + 1) han',
          map_stripRow_replaceFirst acc r (processRowFirstCell r s) heq]

theorem strip_processTable (rows : List Row) (s : Nat)
    (han : alreadyNumbered rows 0 s) (hclean : ∀ r ∈ rows, r.marker = false) :
    (processTable rows s).map stripRow = rows := by
  rw [processTable, strip_processTableAux rows 0 rows s han,
    map_stripRow_of_clean hclean]

/-- A rewritten row, once stripped, is rewritten to the same content at the
same serial: only the sentinel is re-attached. -/
theorem renumber (r : Row) (s : Nat) (h : processRowFirstCell r s ≠ r) :
    processRowFirstCell (stripRow (processRowFirstCell r s)) s
      = { stripRow (processRowFirstCell r s) with marker := true } := by
  rcases r with ⟨tc, rest, mk⟩
  cases tc with
  | none => exact absurd rfl h
  | some cell =>
    rcases cell with ⟨para, crest⟩
    cases para with
    | none => rfl
    | some p =>
      rcases p with ⟨pPr, runs⟩
      cases pPr with
      | none => rfl
      | some _ => exact absurd rfl h

theorem alreadyNumbered_markedNumber (rows : List Row) :
    ∀ idx s, (∀ r ∈ rows, r.marker = false) →
      alreadyNumbered ((markedNumber rows idx s).map stripRow) idx s := by
  induction rows with
  | nil => intro idx s _; simp [markedNumber, alreadyNumbered]
  | cons r rest ih =>
    intro idx s hclean
    have hcr : r.marker = false := hclean r (by simp)
    have hclean' : ∀ x ∈ rest, x.marker = false := fun x hx => hclean x (by simp [hx])
    simp only [markedNumber]
    by_cases hh : isHeaderPos (idx + 1)
    · simp only [hh, if_true, List.map_cons, stripRow_of_clean hcr]
      simp only [alreadyNumbered, hh, if_true]
      exact ih (idx + 1) s hclean'
    · simp only [hh, if_false, Bool.false_eq_true]
      by_cases hch : processRowFirstCell r s = r
      · simp only [if_pos hch, List.map_cons, stripRow_of_clean hcr]
        simp only [alreadyNumbered, hh, if_false, Bool.false_eq_true, if_pos hch]
        exact ih (idx + 1) s hclean'
      · simp only [if_neg hch, List.map_cons]
        have hq := renumber r s hch
        have hqne : processRowFirstCell (stripRow (processRowFirstCell r s)) s
            ≠ stripRow (processRowFirstCell r s) := by
          rw [hq]
          intro he
          have : ({ stripRow (processRowFirstCell r s) with marker := true } : Row).marker
              = (stripRow (processRowFirstCell r s)).marker := by rw [he]
          simp [stripRow] at this
        simp only [alreadyNumbered, hh, if_false, Bool.false_eq_true, if_neg hqne]
        constructor
        · rw [hq]
          rcases processRowFirstCell r s with ⟨tc2, rest2, mk2⟩
          rfl
        · exact ih (idx + 1) (s + 1) hclean'

theorem writeCount_strip_markedNumber (rows : List Row) :
    ∀ idx s, (∀ r ∈ rows, r.marker = false) →
      writeCount ((markedNumber rows idx s).map stripRow) idx s
        = writeCount rows idx s := by
  induction rows with
  | nil => intro idx s _; simp [markedNumber, writeCount]
  | cons r rest ih =>
    intro idx s hclean
    have hcr : r.marker = false := hclean r (by simp)
    have hclean' : ∀ x ∈ rest, x.marker = false := fun x hx => hclean x (by simp [hx])
    simp only [markedNumber]
    by_cases hh : isHeaderPos (idx + 1)
    · simp only [hh, if_true, List.map_cons, stripRow_of_clean hcr]
      simp only [writeCount, hh, if_true]
      exact ih (idx + 1) s hclean'
    · simp only [hh, if_false, Bool.false_eq_true]
      by_cases hch : processRowFirstCell r s = r
      · simp only [if_pos hch, List.map_cons, stripRow_of_clean hcr]
        simp only [writeCount, hh, if_false, Bool.false_eq_true, if_pos hch]
        exact ih (idx + 1) s hclean'
      · simp only [if_neg hch, List.map_cons]
        have hq := renumber r s hch
        have hqne : processRowFirstCell (stripRow (processRowFirstCell r s)) s
            ≠ stripRow (processRowFirstCell r s) := by
          rw [hq]
          intro he
          have : ({ stripRow (processRowFirstCell r s) with marker := true } : Row).marker
              = (stripRow (processRowFirstCell r s)).marker := by rw [he]
          simp [stripRow] at this
        simp only [writeCount, hh, if_false, Bool.false_eq_true, if_neg hqne, if_neg hch]
        rw [ih (idx + 1) (s + 1) hclean']


/-! ## Document-level passes -/

theorem refsAux_of_inPlace (docs : List Table) :
    ∀ A s, (∀ a ∈ A, ∀ t ∈ docs, a ≠ t) → docInPlaceB docs s = true →
      processTableRefsAux docs (A ++ docs) s = A ++ numberDoc docs s := by
  induction docs with
  | nil => intro A s _ _; simp [processTableRefsAux, numberDoc]
  | cons t rest ih =>
    intro A s hA hip
    simp only [docInPlaceB, Bool.and_eq_true, List.all_eq_true] at hip
    obtain ⟨h1, h2⟩ := hip
    simp only [processTableRefsAux, numberDoc]
    have hrw : replaceFirst (A ++ t :: rest) t ((processTable t s).map stripRow)
        = A ++ (processTable t s).map stripRow :: rest :=
      replaceFirst_append_of_forall_ne A (fun a ha => hA a ha t (by simp)) rest _
    rw [hrw]
    have hA2 : ∀ a ∈ A ++ [(processTable t s).map stripRow], ∀ x ∈ rest, a ≠ x := by
      intro a ha x hx
      rcases List.mem_append.mp ha with hh1 | hh2
      · exact hA a hh1 x (by simp [hx])
      · have : a = (processTable t s).map stripRow := by simpa using hh2
        subst this
        have := h1 x hx
        simpa using this
    have hsplit : A ++ (processTable t s).map stripRow :: rest
        = (A ++ [(processTable t s).map stripRow]) ++ rest := by simp
    rw [hsplit, ih _ _ hA2 h2]
    simp

theorem processTableReferences_of_inPlace (docs : List Table) (s : Nat)
    (hip : docInPlaceB docs s = true) :
    processTableReferences docs s = numberDoc docs s := by
  have h := refsAux_of_inPlace docs [] s (by simp) hip
  simpa [processTableReferences] using h

theorem refsAux_fix (docs : List Table) :
    ∀ A s, docAlready docs s → processTableRefsAux docs (A ++ docs) s = A ++ docs := by
  induction docs with
  | nil => intro A s _; simp [processTableRefsAux]
  | cons t rest ih =>
    intro A s h
    obtain ⟨h1, h2⟩ := h
    simp only [processTableRefsAux]
    rw [h1, replaceFirst_self]
    have hsplit : A ++ t :: rest = (A ++ [t]) ++ rest := by simp
    rw [hsplit, ih (A ++ [t]) _ h2]

theorem processTableReferences_fix (docs : List Table) (s : Nat)
    (h : docAlready docs s) : processTableReferences docs s = docs := by
  have h2 := refsAux_fix docs [] s h
  simpa [processTableReferences] using h2

theorem docAlready_numberDoc (docs : List Table) :
    ∀ s, (∀ t ∈ docs, (∀ r ∈ t, r.marker = false) ∧ t.Nodup) →
      docAlready (numberDoc docs s) s := by
  induction docs with
  | nil => intro s _; simp [numberDoc, docAlready]
  | cons t rest ih =>
    intro s h
    obtain ⟨hclean, hnd⟩ := h t (by simp)
    have hmn : processTable t s = markedNumber t 0 s := processTable_of_nodup t s hnd hclean
    have hclean2 : ∀ r ∈ (processTable t s).map stripRow, r.marker = false :=
      clean_of_map_strip _
    have han : alreadyNumbered ((processTable t s).map stripRow) 0 s := by
      rw [hmn]
      exact alreadyNumbered_markedNumber t 0 s hclean
    have hfix : (processTable ((processTable t s).map stripRow) s).map stripRow
        = (processTable t s).map stripRow :=
      strip_processTable _ s han hclean2
    have hcnt : markerCount (processTable ((processTable t s).map stripRow) s)
        = markerCount (processTable t s) := by
      rw [markerCount_processTable _ s hclean2, markerCount_processTable t s hclean]
      rw [hmn]
      exact writeCount_strip_markedNumber t 0 s hclean
    simp only [numberDoc, docAlready]
    refine ⟨hfix, ?_⟩
    rw [hcnt]
    exact ih _ (fun u hu => h u (by simp [hu]))


/-! ## Section-properties normalization -/

theorem foldl_replace_sect (main : String) :
    ∀ (body A : List Block), (∀ s, Block.sectPr s ∈ A → s = main) →
      (sectPrList body).foldl
        (fun acc sect => replaceFirst acc (Block.sectPr sect) (Block.sectPr main))
        (A ++ body)
      = A ++ body.map (applySect main) := by
  intro body
  induction body with
  | nil => intro A _; simp [sectPrList]
  | cons b rest ih =>
    intro A hA
    cases b with
    | plain c =>
      have hs : sectPrList (Block.plain c :: rest) = sectPrList rest := by
        simp [sectPrList]
      have hsplit : A ++ Block.plain c :: rest = (A ++ [Block.plain c]) ++ rest := by simp
      have hA2 : ∀ s, Block.sectPr s ∈ A ++ [Block.plain c] → s = main := by
        intro s hsm
        rcases List.mem_append.mp hsm with h1 | h2
        · exact hA s h1
        · simp at h2
      rw [hs, hsplit, ih (A ++ [Block.plain c]) hA2]
      simp [applySect]
    | sectPr str =>
      have hs : sectPrList (Block.sectPr str :: rest) = str :: sectPrList rest := by
        simp [sectPrList]
      rw [hs]
      simp only [List.foldl_cons]
      by_cases hmem : Block.sectPr str ∈ A
      · have hstr : str = main := hA str hmem
        subst hstr
        rw [replaceFirst_self]
        have hsplit : A ++ Block.sectPr str :: rest
            = (A ++ [Block.sectPr str]) ++ rest := by simp
        have hA2 : ∀ s, Block.sectPr s ∈ A ++ [Block.sectPr str] → s = str := by
          intro s hsm
          rcases List.mem_append.mp hsm with h1 | h2
          · exact hA s h1
          · simpa using h2
        rw [hsplit, ih (A ++ [Block.sectPr str]) hA2]
        simp [applySect]
      · have hAne : ∀ a ∈ A, a ≠ Block.sectPr str := by
          intro a ha he
          exact hmem (he ▸ ha)
        rw [replaceFirst_append_of_forall_ne A hAne rest (Block.sectPr main)]
        have hsplit : A ++ Block.sectPr main :: rest
            = (A ++ [Block.sectPr main]) ++ rest := by simp
        have hA2 : ∀ s, Block.sectPr s ∈ A ++ [Block.sectPr main] → s = main := by
          intro s hsm
          rcases List.mem_append.mp hsm with h1 | h2
          · exact hA s h1
          · simpa using h2
        rw [hsplit, ih (A ++ [Block.sectPr main]) hA2]
        simp [applySect]

/-! ## Path facts for the orchestration model -/

theorem append_temp_ne (s : String) : s ++ ".temp" ≠ s := by
  intro h
  have hlen := congrArg String.length h
  rw [String.length_append] at hlen
  have : (".temp" : String).length = 5 := by decide
  omega


/-! # Claims -/

/-- C1: the header-skip law fails on the code: in a 2-row table whose second
row's first-cell paragraph carries a `<w:pPr>` block, row 2 — which the law
places in the numbered set `{2,3,4,6,…} ∩ [1,R]` — receives no serial number
and consumes none, because the pPr-branch of `processRowFirstCell` searches
for a literal string that does not occur and leaves the row unchanged. -/
theorem headerSkip_pPr_row_not_numbered :
    processTable [c1HeaderRow, c1DataRow] 1 = [c1HeaderRow, c1DataRow] ∧
    assignedNumbers [c1HeaderRow, c1DataRow] 0 1 = [] := by
  constructor <;> decide

/-- C2: global counter monotonicity: with the counter started at 1, every
serial number assigned in an earlier table is strictly below every serial
number assigned in any later table; in particular the counter is never reset
between tables.  (Rows are sentinel-free, as is every document read from
disk.) -/
theorem globalCounter_monotone (docs : List Table)
    (hclean : ∀ t ∈ docs, ∀ r ∈ t, r.marker = false)
    (i j x y : Nat) (hij : i < j)
    (hx : x ∈ (docAssigned docs 1).getD i [])
    (hy : y ∈ (docAssigned docs 1).getD j []) : x < y :=
  docAssigned_mono docs hclean 1 i j x y hij hx hy

/-- Witness for C2 on a concrete two-table document: 1 is assigned in the
first table, 2 in the second, and the theorem yields 1 < 2. -/
theorem globalCounter_monotone_witness :
    (1 : Nat) ∈ (docAssigned c2wDoc 1).getD 0 [] ∧
    (2 : Nat) ∈ (docAssigned c2wDoc 1).getD 1 [] ∧ (1 : Nat) < 2 :=
  ⟨by decide, by decide,
    globalCounter_monotone c2wDoc (by decide) 0 1 1 2 (by decide) (by decide) (by decide)⟩

/-- C3: the cell-write rule fails on the code for paragraphs with a
formatting-properties block: `processRowFirstCell` leaves such a row entirely
unchanged (no number is written), while a paragraph without the block is
rewritten to the serial-number run.  The cause is
`paragraph.replace(pPrMatch[0] + '[\s\S]*?<\/w:p>', …)` (tableHandler.js:169-172),
which passes the pattern as a plain string that never occurs. -/
theorem cellWrite_pPr_paragraph_unchanged :
    processRowFirstCell c3PPrRow 7 = c3PPrRow ∧
    processRowFirstCell c3PlainRow 7 =
      ⟨some ⟨some ⟨none, mkNumRun 7⟩, "ctail"⟩, "rtail", true⟩ := by
  constructor <;> decide

/-- C4: the blank-first-page step is not restricted to the true start of the
Body: on a body whose first paragraph is plain text and whose second
paragraph holds a page-break run, `removeBlankFirstPage` deletes both the
text paragraph and the break paragraph, although the claim requires documents
with no leading break to be unchanged. -/
theorem removeBlankFirstPage_deletes_mid_document_break :
    paraHasPageBreak c4Hello = false ∧
    removeBlankFirstPage [c4Hello, c4Break, c4World] = [c4World] := by
  constructor <;> decide

/-- C5 counterexample: `preserveRelationships` performs no id check: when the
template's header relationship reuses an id already present in the combined
set, the resulting relationship set contains two entries with the same id,
contradicting the claim. -/
theorem preserveRelationships_duplicate_id :
    preserveRelationships (some [c5HeaderRel]) (some c5MergedRels)
      = some (c5MergedRels ++ [c5HeaderRel]) ∧
    ¬ ((c5MergedRels ++ [c5HeaderRel]).map RelEntry.relId).Nodup := by
  constructor <;> decide

/-- C5 amended: the step appends **all** template header/footer relationship
entries to the combined set, with no duplicate-id check, and leaves the
combined set untouched when either relationship part is unreadable. -/
theorem preserveRelationships_appends_all :
    (∀ tr mr : List RelEntry,
      preserveRelationships (some tr) (some mr)
        = some (mr ++ tr.filter (fun e => e.isHeaderFooter))) ∧
    (∀ m : Option (List RelEntry), preserveRelationships none m = m) ∧
    (∀ t : Option (List RelEntry), preserveRelationships t none = none) := by
  refine ⟨?_, ?_, ?_⟩
  · intro tr mr
    simp only [preserveRelationships]
    by_cases h : (tr.filter (fun e => e.isHeaderFooter)).length > 0
    · simp [h]
    · have h0 : tr.filter (fun e => e.isHeaderFooter) = [] := by
        cases hf : tr.filter (fun e => e.isHeaderFooter) with
        | nil => rfl
        | cons a l => rw [hf] at h; simp at h
      simp [h, h0]
  · intro m; cases m <;> rfl
  · intro t; cases t <;> rfl


/-- C6 counterexample: numbering is not idempotent: in a document whose single
table repeats one row twice, the first pass writes the serial number into the
first (header-position) copy — `String.replace` rewrites the first occurrence
— so a second pass still finds the untouched second copy and rewrites it,
changing the document. -/
theorem numbering_not_idempotent_on_duplicate_rows :
    processTableReferences (processTableReferences c6Doc 1) 1
      ≠ processTableReferences c6Doc 1 := by decide

/-- C6 amended: running the Table Numberer a second time on its own output
changes nothing, provided the first pass's first-occurrence replacements land
on the unit being processed: each table's rows are pairwise distinct, rows are
sentinel-free, and no processed table coincides with a later original table
(`docInPlaceB`). -/
theorem numbering_idempotent_of_inPlace (docs : List Table)
    (hclean : ∀ t ∈ docs, ∀ r ∈ t, r.marker = false)
    (hnd : ∀ t ∈ docs, t.Nodup)
    (hip : docInPlaceB docs 1 = true) :
    processTableReferences (processTableReferences docs 1) 1
      = processTableReferences docs 1 := by
  rw [processTableReferences_of_inPlace docs 1 hip]
  exact processTableReferences_fix _ 1
    (docAlready_numberDoc docs 1 (fun t ht => ⟨hclean t ht, hnd t ht⟩))

/-- Witness for C6 on a concrete two-table document with distinct rows. -/
theorem numbering_idempotent_of_inPlace_witness :
    processTableReferences (processTableReferences c6wDoc 1) 1
      = processTableReferences c6wDoc 1 :=
  numbering_idempotent_of_inPlace c6wDoc (by decide) (by decide) (by decide)

/-- C8: section-properties normalization: when the template has a trailing
section-properties block, that block replaces every section-properties block
of the combined body (all other blocks are untouched), and is appended at the
body's end when the combined body has none. -/
theorem updateDocumentReferences_normalizes (templateDoc mergedDoc : List Block)
    (mainSectPr : String)
    (h : (sectPrList templateDoc).getLast? = some mainSectPr) :
    updateDocumentReferences templateDoc mergedDoc
      = if sectPrList mergedDoc = [] then mergedDoc ++ [Block.sectPr mainSectPr]
        else mergedDoc.map (applySect mainSectPr) := by
  have hfold := foldl_replace_sect mainSectPr mergedDoc []
    (by intro s hs; simp at hs)
  simp only [List.nil_append] at hfold
  unfold updateDocumentReferences
  rw [h]
  cases hm : sectPrList mergedDoc with
  | nil => simp [hm]
  | cons s rest =>
    rw [hm] at hfold
    simpa [hm] using hfold

/-- Witness for C8: a template with two section blocks (the trailing one
authoritative) and a merged body with two distinct section blocks. -/
theorem updateDocumentReferences_normalizes_witness :
    updateDocumentReferences c8wTpl c8wMrg
      = if sectPrList c8wMrg = [] then c8wMrg ++ [Block.sectPr "S2"]
        else c8wMrg.map (applySect "S2") :=
  updateDocumentReferences_normalizes c8wTpl c8wMrg "S2" (by decide)

/-- C9 counterexample: two distinct merge requests are given the very same
output path (and hence the same `.temp` intermediate path): the path carries
no request identifier, contradicting request-scoping. -/
theorem outputPath_shared_between_requests :
    c9ReqA ≠ c9ReqB ∧
    requestOutputPath "/srv/app" c9ReqA = requestOutputPath "/srv/app" c9ReqB ∧
    requestTempPath "/srv/app" c9ReqA = requestTempPath "/srv/app" c9ReqB :=
  ⟨by decide, rfl, rfl⟩

/-- C9 amended: the `/merge` handler's final output path, and the `.temp`
scratch path `mergeDocuments` derives from it, are one fixed path shared by
every request — they are constant in the request. -/
theorem outputPath_constant :
    ∀ (dirname : String) (r1 r2 : MergeRequest),
      requestOutputPath dirname r1 = requestOutputPath dirname r2 ∧
      requestTempPath dirname r1 = requestTempPath dirname r2 :=
  fun _ _ _ => ⟨rfl, rfl⟩

/-- C10: contiguity: the serial numbers assigned over the whole document,
started at 1, are exactly the contiguous range `1..K` where `K` is the total
number of rewritten rows — each rewrite consumes exactly one number, and a
row with no first cell is never rewritten and consumes none. -/
theorem serials_contiguous (docs : List Table)
    (hclean : ∀ t ∈ docs, ∀ r ∈ t, r.marker = false) :
    concatAll (docAssigned docs 1) = List.range' 1 (docWriteTotal docs 1) ∧
    (∀ (r : Row) (n : Nat), r.tc = none → processRowFirstCell r n = r) := by
  refine ⟨concatAll_docAssigned docs hclean 1, ?_⟩
  intro r n hr
  rcases r with ⟨tc, rest, mk⟩
  cases tc with
  | none => rfl
  | some c => simp at hr

/-- Witness for C10 on a document whose table has headers at rows 1 and 5 and
a cell-less row at position 4: the two rewritten rows receive exactly 1, 2. -/
theorem serials_contiguous_witness :
    concatAll (docAssigned c10wDoc 1) = List.range' 1 (docWriteTotal c10wDoc 1) :=
  (serials_contiguous c10wDoc (by decide)).1


/-- C7 counterexample: a merge whose combined package lacks
`word/document.xml` fails at the table-numbering stage, yet the
template-applied (un-numbered) package is already visible at the requested
final output path — `applyTemplate` writes straight to `outputPath` before
numbering runs, with no temporary-location-then-rename step. -/
theorem mergeDocuments_partial_output_on_failure :
    (mergeDocuments c7Apply c7Merge c7FS "template.docx" ["doc1.docx"] "out.docx").2
      = Except.error "word/document.xml missing" ∧
    (mergeDocuments c7Apply c7Merge c7FS "template.docx" ["doc1.docx"] "out.docx").1
        "out.docx"
      = some ⟨none, "merged parts"⟩ := by
  constructor <;> rfl

/-- C7 amended: a missing template or input aborts before any write, and a
failure is always reported as an error — but the pipeline writes the
template-applied package directly to the final output path before numbering,
so a numbering failure leaves that intermediate package visible there (and
the `.temp` file behind). -/
theorem mergeDocuments_failure_semantics
    (applyT : Pkg → Pkg → Pkg) (docxMerge : List Pkg → Pkg) (fs : FS)
    (templatePath outputPath : String) (documentPaths : List String)
    (templatePkg : Pkg)
    (h1 : fs templatePath = some templatePkg)
    (h2 : documentPaths.all (fun d => (fs d).isSome) = true)
    (h3 : (applyT templatePkg (docxMerge (documentPaths.filterMap fs))).documentXml
      = none) :
    (mergeDocuments applyT docxMerge fs templatePath documentPaths outputPath).2
        = Except.error "word/document.xml missing" ∧
    (mergeDocuments applyT docxMerge fs templatePath documentPaths outputPath).1
        outputPath
        = some (applyT templatePkg (docxMerge (documentPaths.filterMap fs))) ∧
    (mergeDocuments applyT docxMerge fs templatePath documentPaths outputPath).1
        (outputPath ++ ".temp")
        = some (docxMerge (documentPaths.filterMap fs)) ∧
    (∀ fsb : FS, fsb templatePath = none →
      mergeDocuments applyT docxMerge fsb templatePath documentPaths outputPath
        = (fsb, Except.error "template does not exist")) := by
  have hfs2 : fsPut (fsPut fs (outputPath ++ ".temp")
        (docxMerge (documentPaths.filterMap fs))) outputPath
        (applyT templatePkg (docxMerge (documentPaths.filterMap fs))) outputPath
      = some (applyT templatePkg (docxMerge (documentPaths.filterMap fs))) := by
    simp [fsPut]
  have hmerge : mergeDocuments applyT docxMerge fs templatePath documentPaths outputPath
      = (fsPut (fsPut fs (outputPath ++ ".temp")
            (docxMerge (documentPaths.filterMap fs))) outputPath
            (applyT templatePkg (docxMerge (documentPaths.filterMap fs))),
          Except.error "word/document.xml missing") := by
    unfold mergeDocuments
    rw [h1]
    simp only [h2, if_true]
    simp only [processTablesInDocument, hfs2, h3]
  refine ⟨by rw [hmerge], ?_, ?_, ?_⟩
  · rw [hmerge]
    simp [fsPut]
  · rw [hmerge]
    simp [fsPut, append_temp_ne outputPath]
  · intro fsb hn
    unfold mergeDocuments
    rw [hn]


/-- Witness for C7: the failing-numbering scenario instantiated on a concrete
file system, external merge and template application. -/
theorem mergeDocuments_failure_semantics_witness :
    (mergeDocuments c7Apply c7Merge c7FS "template.docx" ["doc1.docx"] "o.docx").2
        = Except.error "word/document.xml missing" ∧
    (mergeDocuments c7Apply c7Merge c7FS "template.docx" ["doc1.docx"] "o.docx").1
        "o.docx"
        = some (c7Apply c7TplPkg (c7Merge (["doc1.docx"].filterMap c7FS))) ∧
    (mergeDocuments c7Apply c7Merge c7FS "template.docx" ["doc1.docx"] "o.docx").1
        ("o.docx" ++ ".temp")
        = some (c7Merge (["doc1.docx"].filterMap c7FS)) ∧
    (∀ fsb : FS, fsb "template.docx" = none →
      mergeDocuments c7Apply c7Merge fsb "template.docx" ["doc1.docx"] "o.docx"
        = (fsb, Except.error "template does not exist")) :=
  mergeDocuments_failure_semantics c7Apply c7Merge c7FS "template.docx" "o.docx"
    ["doc1.docx"] c7TplPkg (by decide) (by decide) (by decide)

end AtomInspections
